import Mathlib

/-!
Verification of the SubsCenter subtitle provider
(`lib/subliminal/providers/subscenter.py`).

The provider's pure logic is embedded shallowly:

* the four-level nested JSON listing walked by `SubsCenterProvider.query`
  becomes the type `RawListing`;
* the merging loop of `query` (Python `dict` accumulator, `bisect.insort_left`,
  `downloaded +=`) becomes a fold `queryMerge` over the flattened leaf list;
* `_search_url_title`'s redirect branch and suggestion scan become
  `search_url_title_redirect` / `search_url_title_suggestions`
  (`Except Unit` models a Python `IndexError` escaping from `parts[-3]`);
* `query`'s argument dispatch becomes `queryDispatch` (Python truthiness of
  the optional arguments is modelled explicitly; `Except.error` models the
  `ValueError` raise);
* `download_subtitle`'s archive handling becomes `download_subtitle`
  over a list of (entry name, bytes) pairs;
* `initialize` / `terminate` become state functions over `ProviderState`,
  tracking whether the transport session is open.
-/

namespace SubsCenter

/-- A babelfish language value; the provider only ever builds it via
`Language.fromalpha2`, so it is modelled as a wrapper around the alpha2 code. -/
structure Language where
  alpha2 : String
deriving DecidableEq, Repr

/-- `Language.fromalpha2(language_code)`. -/
def Language.fromalpha2 (code : String) : Language := ⟨code⟩

/-- One leaf payload of the nested listing, as read by the loop body of
`SubsCenterProvider.query`: the fields `hearing_impaired`, `id`, `key`,
`downloaded` and `subtitle_version` of `subtitle_item`. -/
structure SubtitleItem where
  hearing_impaired : Bool
  id : Nat
  key : String
  downloaded : Int
  subtitle_version : String
deriving DecidableEq, Repr

/-- The raw nested listing: a mapping from language code to a mapping whose
values are mappings from quality label to a mapping of item-id to payload.
Dictionaries are modelled as association/value lists in iteration order; the
keys that `query` never reads (levels 2 and 4) are dropped. -/
abbrev RawListing : Type :=
  List (String × List (List (String × List SubtitleItem)))

/-- The query-wide arguments that `query` copies into every subtitle it
creates: `page_link`, `series`, `season`, `episode`, `title`. -/
structure QueryContext where
  page_link : String
  series : Option String
  season : Option Nat
  episode : Option Nat
  title : Option String
deriving DecidableEq, Repr

/-- The `SubsCenterSubtitle` record as constructed by `query`
(constructor arguments of `SubsCenterSubtitle.__init__`). -/
structure SubsCenterSubtitle where
  language : Language
  hearing_impaired : Bool
  page_link : String
  series : Option String
  season : Option Nat
  episode : Option Nat
  title : Option String
  subtitle_id : Nat
  subtitle_key : String
  downloaded : Int
  releases : List String
deriving DecidableEq, Repr

/-- Python string comparison `a <= b` on the underlying character sequences:
lexicographic by code point. -/
def charListLe : List Char → List Char → Bool
  | [], _ => true
  | _ :: _, [] => false
  | a :: as, b :: bs => if a < b then true else if b < a then false else charListLe as bs

/-- Python `a <= b` on strings (code-point lexicographic order). -/
def pyStrLe (a b : String) : Bool := charListLe a.data b.data

/-- `bisect.insort_left(xs, r)` on a list of strings: insert `r` before the
first element that is `≥ r`, keeping a sorted list sorted. -/
def insort_left (xs : List String) (r : String) : List String :=
  match xs with
  | [] => [r]
  | x :: rest => if pyStrLe r x then r :: x :: rest else x :: insort_left rest r

/-- Python `subtitles[i]` / `i in subtitles` on the accumulator dict,
modelled on the association list. -/
def dictFind (i : Nat) : List (Nat × SubsCenterSubtitle) → Option SubsCenterSubtitle
  | [] => none
  | p :: rest => if p.1 = i then some p.2 else dictFind i rest

/-- In-place mutation of the entry at key `i` of the accumulator dict. -/
def dictUpdate (m : List (Nat × SubsCenterSubtitle)) (i : Nat)
    (g : SubsCenterSubtitle → SubsCenterSubtitle) : List (Nat × SubsCenterSubtitle) :=
  m.map fun p => if p.1 = i then (p.1, g p.2) else p

/-- The duplicate-id branch of the loop body:
`bisect.insort_left(subtitles[subtitle_id].releases, release)` followed by
`subtitles[subtitle_id].downloaded += downloaded`. -/
def mergeStep (s : SubsCenterSubtitle) (item : SubtitleItem) : SubsCenterSubtitle :=
  { s with releases := insort_left s.releases item.subtitle_version,
           downloaded := s.downloaded + item.downloaded }

/-- The fresh-id branch of the loop body: the `SubsCenterSubtitle(...)`
constructor call, with a single-element releases list. -/
def newRecord (ctx : QueryContext) (frag : String × SubtitleItem) : SubsCenterSubtitle :=
  { language := Language.fromalpha2 frag.1
    hearing_impaired := frag.2.hearing_impaired
    page_link := ctx.page_link
    series := ctx.series
    season := ctx.season
    episode := ctx.episode
    title := ctx.title
    subtitle_id := frag.2.id
    subtitle_key := frag.2.key
    downloaded := frag.2.downloaded
    releases := [frag.2.subtitle_version] }

/-- One iteration of the innermost loop of `query`, processing a single leaf
`subtitle_item` together with the `language_code` it sits under. -/
def processItem (ctx : QueryContext) (subtitles : List (Nat × SubsCenterSubtitle))
    (frag : String × SubtitleItem) : List (Nat × SubsCenterSubtitle) :=
  if (dictFind frag.2.id subtitles).isSome then
    dictUpdate subtitles frag.2.id (fun s => mergeStep s frag.2)
  else
    subtitles ++ [(frag.2.id, newRecord ctx frag)]

/-- The leaf sequence visited by the four nested `for` loops of `query`,
each leaf paired with its language code, in traversal order. -/
def flattenListing (results : RawListing) : List (String × SubtitleItem) :=
  results.flatMap fun lang =>
    lang.2.flatMap fun quality_data =>
      quality_data.flatMap fun qd => qd.2.map fun item => (lang.1, item)

/-- The accumulator dict built by the loop of `query` over a leaf sequence. -/
def queryMerge (ctx : QueryContext) (frags : List (String × SubtitleItem)) :
    List (Nat × SubsCenterSubtitle) :=
  frags.foldl (processItem ctx) []

/-- `query`'s return value `subtitles.values()`: the merged records in
first-encounter order of their ids. -/
def query (ctx : QueryContext) (results : RawListing) : List SubsCenterSubtitle :=
  (queryMerge ctx (flattenListing results)).map Prod.snd

/-- The fragments of a leaf sequence that share the id `i` (the ones merged
into the record keyed by `i`), in traversal order. -/
def fragsFor (frags : List (String × SubtitleItem)) (i : Nat) :
    List (String × SubtitleItem) :=
  frags.filter fun f => f.2.id = i

/-! ### Argument dispatch of `query` -/

/-- Python truthiness of an optional string argument:
`None` and the empty string are falsy. -/
def truthyStr : Option String → Bool
  | none => false
  | some s => decide (s ≠ "")

/-- Python truthiness of an optional numeric argument: `None` and `0` are
falsy. -/
def truthyNat : Option Nat → Bool
  | none => false
  | some n => decide (n ≠ 0)

/-- Which of the two fetch paths `query` commits to. -/
inductive QueryBranch
  | episodeBranch
  | movieBranch
deriving DecidableEq, Repr

/-- The `if series and season and episode: ... elif title: ... else: raise
ValueError(...)` dispatch at the top of `query`.  `Except.error` models the
`ValueError` raise, which happens before any network request is issued. -/
def queryDispatch (series : Option String) (season episode : Option Nat)
    (title : Option String) : Except String QueryBranch :=
  if truthyStr series && truthyNat season && truthyNat episode then
    .ok .episodeBranch
  else if truthyStr title then
    .ok .movieBranch
  else
    .error "One or more parameters are missing"

/-! ### `_search_url_title` -/

/-- Python `s.split('/')` (single-character separator). -/
def splitSlashAux : List Char → List Char → List String
  | [], acc => [String.mk acc.reverse]
  | c :: rest, acc =>
    if c = '/' then String.mk acc.reverse :: splitSlashAux rest []
    else splitSlashAux rest (c :: acc)

/-- Python `s.split('/')`. -/
def pySplitSlash (s : String) : List String := splitSlashAux s.data []

/-- The kind segment `parts[-3]` of an URL path (only meaningful when the
split has at least three components). -/
def kindSegment (url : String) : String :=
  let parts := pySplitSlash url
  parts.getD (parts.length - 3) ""

/-- The slug segment `parts[-2]` of an URL path. -/
def slugSegment (url : String) : String :=
  let parts := pySplitSlash url
  parts.getD (parts.length - 2) ""

/-- The redirect branch of `_search_url_title`: split the `Location` header
on `/`, return `parts[-2]` when `parts[-3]` equals the requested kind and
`None` otherwise.  `Except.error ()` models the `IndexError` that
`parts[-3]` raises when the split has fewer than three components. -/
def search_url_title_redirect (location kind : String) :
    Except Unit (Option String) :=
  if (pySplitSlash location).length < 3 then .error ()
  else if kindSegment location = kind then .ok (some (slugSegment location))
  else .ok none

/-- The suggestion-scan branch of `_search_url_title`: walk the suggestion
links' `href` values in document order, returning `parts[-2]` of the first
whose `parts[-3]` equals the requested kind; falling off the loop returns
`None`.  `Except.error ()` models an `IndexError` from `parts[-3]`. -/
def search_url_title_suggestions (hrefs : List String) (kind : String) :
    Except Unit (Option String) :=
  match hrefs with
  | [] => .ok none
  | href :: rest =>
    if (pySplitSlash href).length < 3 then .error ()
    else if kindSegment href = kind then .ok (some (slugSegment href))
    else search_url_title_suggestions rest kind

/-! ### `download_subtitle` -/

/-- Python `s.endswith(suffix)`. -/
def pyEndsWith (s suffix : String) : Bool :=
  decide (suffix.data.length ≤ s.data.length) &&
  decide (s.data.drop (s.data.length - suffix.data.length) = suffix.data)

/-- Modelled from the spec: `fix_line_ending` is defined in
`subliminal/subtitle.py`, which is not among the sources here; the spec
describes it as line-ending normalization of the payload bytes, i.e.
every CRLF pair becomes a single LF. -/
def fix_line_ending : List Nat → List Nat
  | 13 :: 10 :: rest => 10 :: fix_line_ending rest
  | b :: rest => b :: fix_line_ending rest
  | [] => []

/-- How `download_subtitle` can fail on the archive contents. -/
inductive DownloadError
  | providerError (msg : String)
  | indexError
deriving DecidableEq, Repr

/-- `zf.read(name)`: the bytes of the (first) archive entry of that name. -/
def zfRead (entries : List (String × List Nat)) (name : String) : List Nat :=
  ((entries.find? fun e => e.1 == name).map Prod.snd).getD []

/-- `namelist = [n for n in zf.namelist() if not n.endswith('.txt')]`. -/
def zfNamelist (entries : List (String × List Nat)) : List String :=
  (entries.map Prod.fst).filter fun n => !(pyEndsWith n ".txt")

/-- The archive-handling tail of `download_subtitle`, over the archive's
(entry name, entry bytes) pairs: drop `.txt` names from the name list, raise
`ProviderError` when more than one name remains, otherwise store the
line-ending-normalized bytes of the first remaining name.
`DownloadError.indexError` models `namelist[0]` on an empty list. -/
def download_subtitle (entries : List (String × List Nat)) :
    Except DownloadError (List Nat) :=
  if (zfNamelist entries).length > 1 then
    .error (.providerError "More than one file to unzip")
  else
    match zfNamelist entries with
    | [] => .error .indexError
    | n :: _ => .ok (fix_line_ending (zfRead entries n))

/-! ### Session lifecycle -/

/-- The session-related state of the provider: whether `self.session` is an
open transport session, and the `self.logged_in` flag. -/
structure ProviderState where
  sessionOpen : Bool
  logged_in : Bool
deriving DecidableEq, Repr

/-- The exceptions the lifecycle methods can raise. -/
inductive ProviderFailure
  | authenticationError (username : String)
  | httpError
deriving DecidableEq, Repr

/-- `SubsCenterProvider.initialize`, driven by the login POST's status code:
open a fresh session; with credentials, perform the login handshake and
raise `AuthenticationError` when the POST does not answer 302.  Returns the
resulting state together with the raised exception, if any. -/
def initializeProvider (username password : Option String) (loginStatus : Nat) :
    ProviderState × Option ProviderFailure :=
  let st : ProviderState := { sessionOpen := true, logged_in := false }
  if username.isSome && password.isSome then
    if loginStatus ≠ 302 then (st, some (.authenticationError (username.getD "")))
    else ({ st with logged_in := true }, none)
  else (st, none)

/-- `SubsCenterProvider.terminate`, driven by the logout GET's status code:
when logged in, issue the logout request and `raise_for_status()` it (an
error status raises before anything else happens); then close the session. -/
def terminateProvider (st : ProviderState) (logoutStatus : Nat) :
    ProviderState × Option ProviderFailure :=
  if st.logged_in then
    if 400 ≤ logoutStatus then (st, some .httpError)
    else ({ sessionOpen := false, logged_in := false }, none)
  else ({ st with sessionOpen := false }, none)

/-! ### Order properties of the release-name comparison -/

theorem charListLe_total (a : List Char) :
    ∀ b, charListLe a b = true ∨ charListLe b a = true := by
  induction a with
  | nil => intro b; exact Or.inl rfl
  | cons x xs ih =>
    intro b
    cases b with
    | nil => exact Or.inr rfl
    | cons y ys =>
      by_cases hxy : x < y
      · exact Or.inl (by simp [charListLe, hxy])
      · by_cases hyx : y < x
        · exact Or.inr (by simp [charListLe, hyx, hxy])
        · rcases ih ys with h | h
          · exact Or.inl (by simp [charListLe, hxy, hyx, h])
          · exact Or.inr (by simp [charListLe, hxy, hyx, h])

theorem charListLe_trans (a : List Char) :
    ∀ b c, charListLe a b = true → charListLe b c = true → charListLe a c = true := by
  induction a with
  | nil => intro b c _ _; rfl
  | cons x xs ih =>
    intro b c hab hbc
    cases b with
    | nil => simp [charListLe] at hab
    | cons y ys =>
      cases c with
      | nil => simp [charListLe] at hbc
      | cons z zs =>
        by_cases hxy : x < y
        · by_cases hyz : y < z
          · simp [charListLe, lt_trans hxy hyz]
          · have hzy : ¬ z < y := by
              intro hzy; simp [charListLe, hyz, hzy] at hbc
            have hxz : x < z := lt_of_lt_of_le hxy (not_lt.mp hzy)
            simp [charListLe, hxz]
        · by_cases hyx : y < x
          · simp [charListLe, hxy, hyx] at hab
          · have hxy' : x = y := le_antisymm (not_lt.mp hyx) (not_lt.mp hxy)
            subst hxy'
            simp only [charListLe, hxy, if_neg hxy, if_false] at hab ⊢
            by_cases hxz : x < z
            · simp [hxz]
            · by_cases hzx : z < x
              · simp [charListLe, hxz, hzx] at hbc
              · simp only [charListLe, if_neg hxz, if_neg hzx] at hbc ⊢
                exact ih ys zs hab hbc

theorem charListLe_antisymm (a : List Char) :
    ∀ b, charListLe a b = true → charListLe b a = true → a = b := by
  induction a with
  | nil =>
    intro b _ hba
    cases b with
    | nil => rfl
    | cons y ys => simp [charListLe] at hba
  | cons x xs ih =>
    intro b hab hba
    cases b with
    | nil => simp [charListLe] at hab
    | cons y ys =>
      by_cases hxy : x < y
      · simp [charListLe, hxy, lt_asymm hxy] at hba
      · by_cases hyx : y < x
        · simp [charListLe, hxy, hyx] at hab
        · have hxy' : x = y := le_antisymm (not_lt.mp hyx) (not_lt.mp hxy)
          subst hxy'
          simp only [charListLe, if_neg hxy, if_neg hyx] at hab hba
          exact congrArg (x :: ·) (ih ys hab hba)

theorem pyStrLe_trans {a b c : String} (hab : pyStrLe a b = true)
    (hbc : pyStrLe b c = true) : pyStrLe a c = true :=
  charListLe_trans a.data b.data c.data hab hbc

theorem pyStrLe_total (a b : String) : pyStrLe a b = true ∨ pyStrLe b a = true :=
  charListLe_total a.data b.data

theorem pyStrLe_antisymm {a b : String} (hab : pyStrLe a b = true)
    (hba : pyStrLe b a = true) : a = b := by
  cases a with
  | mk da =>
    cases b with
    | mk db => exact congrArg String.mk (charListLe_antisymm da db hab hba)

/-! ### Properties of sorted insertion -/

theorem insort_left_perm (xs : List String) (r : String) :
    (insort_left xs r).Perm (r :: xs) := by
  induction xs with
  | nil => exact List.Perm.refl [r]
  | cons x rest ih =>
    rw [insort_left]
    by_cases h : pyStrLe r x = true
    · rw [if_pos h]
    · rw [if_neg h]
      exact (ih.cons x).trans (List.Perm.swap r x rest)

theorem insort_left_pairwise {xs : List String} (r : String)
    (h : xs.Pairwise fun a b => pyStrLe a b = true) :
    (insort_left xs r).Pairwise fun a b => pyStrLe a b = true := by
  induction xs with
  | nil => simp [insort_left]
  | cons x rest ih =>
    rw [insort_left]
    by_cases hrx : pyStrLe r x = true
    · rw [if_pos hrx]
      refine List.Pairwise.cons ?_ h
      intro y hy
      rcases List.mem_cons.mp hy with h1 | h2
      · subst h1; exact hrx
      · exact pyStrLe_trans hrx ((List.pairwise_cons.mp h).1 y h2)
    · rw [if_neg hrx]
      have hxr : pyStrLe x r = true := (pyStrLe_total r x).resolve_left hrx
      refine List.Pairwise.cons ?_ (ih (List.pairwise_cons.mp h).2)
      intro y hy
      rcases List.mem_cons.mp ((insort_left_perm rest r).mem_iff.mp hy) with h1 | h2
      · subst h1; exact hxr
      · exact (List.pairwise_cons.mp h).1 y h2

theorem foldl_insort_perm (rs : List String) (l : List String) :
    (rs.foldl insort_left l).Perm (l ++ rs) := by
  induction rs generalizing l with
  | nil => simp
  | cons r rs ih =>
    simp only [List.foldl_cons]
    refine (ih (insort_left l r)).trans ?_
    refine ((insort_left_perm l r).append_right rs).trans ?_
    simpa using (@List.perm_middle String r l rs).symm

theorem foldl_insort_pairwise (rs : List String) {l : List String}
    (h : l.Pairwise fun a b => pyStrLe a b = true) :
    (rs.foldl insort_left l).Pairwise fun a b => pyStrLe a b = true := by
  induction rs generalizing l with
  | nil => exact h
  | cons r rs ih => exact ih (insort_left_pairwise r h)

theorem sorted_perm_eq {l₁ l₂ : List String} (hp : l₁.Perm l₂)
    (h1 : l₁.Pairwise fun a b => pyStrLe a b = true)
    (h2 : l₂.Pairwise fun a b => pyStrLe a b = true) : l₁ = l₂ :=
  @List.eq_of_perm_of_sorted String (fun a b => pyStrLe a b = true)
    ⟨fun _ _ hab hba => pyStrLe_antisymm hab hba⟩ l₁ l₂ hp h1 h2

/-! ### Characterization of the merging loop -/

/-- Repeated application of the duplicate-id branch to one record. -/
def mergeAll (s : SubsCenterSubtitle) (fs : List (String × SubtitleItem)) :
    SubsCenterSubtitle :=
  fs.foldl (fun t f => mergeStep t f.2) s

theorem mergeAll_releases (s : SubsCenterSubtitle) (fs : List (String × SubtitleItem)) :
    (mergeAll s fs).releases =
      (fs.map fun f => f.2.subtitle_version).foldl insort_left s.releases := by
  induction fs generalizing s with
  | nil => rfl
  | cons f fs ih =>
    simp only [mergeAll, List.foldl_cons, List.map_cons]
    exact ih (mergeStep s f.2)

theorem mergeAll_downloaded (s : SubsCenterSubtitle) (fs : List (String × SubtitleItem)) :
    (mergeAll s fs).downloaded = s.downloaded + (fs.map fun f => f.2.downloaded).sum := by
  induction fs generalizing s with
  | nil => simp [mergeAll]
  | cons f fs ih =>
    simp only [mergeAll, List.foldl_cons, List.map_cons, List.sum_cons]
    rw [show (List.foldl (fun t f => mergeStep t f.2) (mergeStep s f.2) fs) =
          mergeAll (mergeStep s f.2) fs from rfl, ih]
    simp [mergeStep, add_assoc]

theorem mergeStep_frame (t : SubsCenterSubtitle) (item : SubtitleItem) :
    (mergeStep t item).language = t.language ∧
    (mergeStep t item).hearing_impaired = t.hearing_impaired ∧
    (mergeStep t item).page_link = t.page_link ∧
    (mergeStep t item).series = t.series ∧
    (mergeStep t item).season = t.season ∧
    (mergeStep t item).episode = t.episode ∧
    (mergeStep t item).title = t.title ∧
    (mergeStep t item).subtitle_id = t.subtitle_id ∧
    (mergeStep t item).subtitle_key = t.subtitle_key := by
  simp [mergeStep]

theorem mergeAll_frame (s : SubsCenterSubtitle) (fs : List (String × SubtitleItem)) :
    (mergeAll s fs).language = s.language ∧
    (mergeAll s fs).hearing_impaired = s.hearing_impaired ∧
    (mergeAll s fs).page_link = s.page_link ∧
    (mergeAll s fs).series = s.series ∧
    (mergeAll s fs).season = s.season ∧
    (mergeAll s fs).episode = s.episode ∧
    (mergeAll s fs).title = s.title ∧
    (mergeAll s fs).subtitle_id = s.subtitle_id ∧
    (mergeAll s fs).subtitle_key = s.subtitle_key := by
  induction fs generalizing s with
  | nil => simp [mergeAll]
  | cons f fs ih =>
    simp only [mergeAll, List.foldl_cons]
    exact (ih (mergeStep s f.2)).imp (fun h => h.trans (mergeStep_frame s f.2).1)
      (fun h => h.imp (fun h => h.trans (mergeStep_frame s f.2).2.1)
        (fun h => h.imp (fun h => h.trans (mergeStep_frame s f.2).2.2.1)
          (fun h => h.imp (fun h => h.trans (mergeStep_frame s f.2).2.2.2.1)
            (fun h => h.imp (fun h => h.trans (mergeStep_frame s f.2).2.2.2.2.1)
              (fun h => h.imp (fun h => h.trans (mergeStep_frame s f.2).2.2.2.2.2.1)
                (fun h => h.imp (fun h => h.trans (mergeStep_frame s f.2).2.2.2.2.2.2.1)
                  (fun h => h.imp (fun h => h.trans (mergeStep_frame s f.2).2.2.2.2.2.2.2.1)
                    (fun h => h.trans (mergeStep_frame s f.2).2.2.2.2.2.2.2.2))))))))

theorem dictFind_update (m : List (Nat × SubsCenterSubtitle)) (i k : Nat)
    (g : SubsCenterSubtitle → SubsCenterSubtitle) :
    dictFind i (dictUpdate m k g) =
      if i = k then (dictFind i m).map g else dictFind i m := by
  induction m with
  | nil => by_cases h : i = k <;> simp [dictFind, dictUpdate, h]
  | cons p rest ih =>
    simp only [dictUpdate, List.map_cons] at ih ⊢
    by_cases hpk : p.1 = k
    · rw [if_pos hpk]
      by_cases hpi : p.1 = i
      · have hik : i = k := hpi ▸ hpk
        simp [dictFind, hpi, hik]
      · simp [dictFind, hpi, ih]
    · rw [if_neg hpk]
      by_cases hpi : p.1 = i
      · have hik : ¬ i = k := fun h => hpk (hpi.trans h)
        simp [dictFind, hpi, hik]
      · simp [dictFind, hpi, ih]

theorem dictFind_append_single (m : List (Nat × SubsCenterSubtitle)) (i k : Nat)
    (s : SubsCenterSubtitle) :
    dictFind i (m ++ [(k, s)]) =
      match dictFind i m with
      | some v => some v
      | none => if k = i then some s else none := by
  induction m with
  | nil => simp [dictFind]
  | cons p rest ih =>
    by_cases hpi : p.1 = i <;> simp [dictFind, hpi, ih]

theorem dictFind_foldl_processItem (ctx : QueryContext)
    (frags : List (String × SubtitleItem)) :
    ∀ (acc : List (Nat × SubsCenterSubtitle)) (i : Nat),
      dictFind i (frags.foldl (processItem ctx) acc) =
        match dictFind i acc with
        | some s => some (mergeAll s (fragsFor frags i))
        | none =>
          match fragsFor frags i with
          | [] => none
          | f :: fs => some (mergeAll (newRecord ctx f) fs) := by
  induction frags with
  | nil =>
    intro acc i
    cases h : dictFind i acc <;> simp [fragsFor, mergeAll, h]
  | cons f fs ih =>
    intro acc i
    rw [List.foldl_cons, ih (processItem ctx acc f) i]
    by_cases hfi : f.2.id = i
    · subst hfi
      rw [show fragsFor (f :: fs) f.2.id = f :: fragsFor fs f.2.id by
        simp [fragsFor, List.filter_cons]]
      cases hacc : dictFind f.2.id acc with
      | some s =>
        have hmem : (dictFind f.2.id acc).isSome = true := by rw [hacc]; rfl
        rw [show processItem ctx acc f =
              dictUpdate acc f.2.id (fun t => mergeStep t f.2) by
            simp [processItem, hmem]]
        rw [dictFind_update, if_pos rfl, hacc]
        simp [mergeAll]
      | none =>
        have hmem : (dictFind f.2.id acc).isSome = false := by rw [hacc]; rfl
        rw [show processItem ctx acc f = acc ++ [(f.2.id, newRecord ctx f)] by
            simp [processItem, hmem]]
        rw [dictFind_append_single, hacc]
        simp [mergeAll]
    · rw [show fragsFor (f :: fs) i = fragsFor fs i by
        simp [fragsFor, List.filter_cons, hfi]]
      have hfind : dictFind i (processItem ctx acc f) = dictFind i acc := by
        by_cases hmem : (dictFind f.2.id acc).isSome
        · rw [show processItem ctx acc f =
                dictUpdate acc f.2.id (fun t => mergeStep t f.2) by
              simp [processItem, hmem]]
          rw [dictFind_update, if_neg (fun h => hfi h.symm)]
        · rw [show processItem ctx acc f = acc ++ [(f.2.id, newRecord ctx f)] by
              simp [processItem, hmem]]
          rw [dictFind_append_single]
          cases hacc : dictFind i acc with
          | some s => rfl
          | none => simp [hfi]
      rw [hfind]

/-- What the accumulator dict of `query` holds at key `i`, in terms of the
fragments sharing that id. -/
theorem dictFind_queryMerge (ctx : QueryContext)
    (frags : List (String × SubtitleItem)) (i : Nat) :
    dictFind i (queryMerge ctx frags) =
      match fragsFor frags i with
      | [] => none
      | f :: fs => some (mergeAll (newRecord ctx f) fs) := by
  rw [queryMerge, dictFind_foldl_processItem ctx frags [] i]
  rfl

/-! ### The accumulator dict is a well-formed mapping -/

theorem dictFind_eq_none_of_not_mem_keys {m : List (Nat × SubsCenterSubtitle)} {i : Nat}
    (h : i ∉ m.map Prod.fst) : dictFind i m = none := by
  induction m with
  | nil => rfl
  | cons p rest ih =>
    simp only [List.map_cons, List.mem_cons] at h
    push_neg at h
    rw [dictFind, if_neg (fun hpi => h.1 hpi.symm)]
    exact ih h.2

theorem dictFind_isSome_of_mem_keys {m : List (Nat × SubsCenterSubtitle)} {i : Nat}
    (h : i ∈ m.map Prod.fst) : (dictFind i m).isSome = true := by
  induction m with
  | nil => cases h
  | cons p rest ih =>
    simp only [List.map_cons, List.mem_cons] at h
    by_cases hpi : p.1 = i
    · simp [dictFind, hpi]
    · rw [dictFind, if_neg hpi]
      exact ih (h.resolve_left fun he => hpi he.symm)

theorem keys_dictUpdate (m : List (Nat × SubsCenterSubtitle)) (k : Nat)
    (g : SubsCenterSubtitle → SubsCenterSubtitle) :
    (dictUpdate m k g).map Prod.fst = m.map Prod.fst := by
  induction m with
  | nil => rfl
  | cons p rest ih =>
    by_cases hpk : p.1 = k <;> simp [dictUpdate, hpk] <;>
      simpa [dictUpdate] using ih

theorem keys_nodup_processItem (ctx : QueryContext)
    {acc : List (Nat × SubsCenterSubtitle)} (f : String × SubtitleItem)
    (h : (acc.map Prod.fst).Nodup) :
    ((processItem ctx acc f).map Prod.fst).Nodup := by
  by_cases hmem : (dictFind f.2.id acc).isSome
  · rw [show processItem ctx acc f = dictUpdate acc f.2.id (fun t => mergeStep t f.2) by
      simp [processItem, hmem]]
    rwa [keys_dictUpdate]
  · rw [show processItem ctx acc f = acc ++ [(f.2.id, newRecord ctx f)] by
      simp [processItem, hmem]]
    rw [List.map_append]
    refine List.Nodup.append h (List.nodup_singleton _) ?_
    intro a ha hb
    simp only [List.map_cons, List.map_nil, List.mem_singleton] at hb
    subst hb
    exact hmem (dictFind_isSome_of_mem_keys ha)

theorem keys_nodup_queryMerge (ctx : QueryContext)
    (frags : List (String × SubtitleItem)) :
    ((queryMerge ctx frags).map Prod.fst).Nodup := by
  rw [queryMerge]
  have h : ∀ acc : List (Nat × SubsCenterSubtitle), (acc.map Prod.fst).Nodup →
      ((frags.foldl (processItem ctx) acc).map Prod.fst).Nodup := by
    induction frags with
    | nil => exact fun acc h => h
    | cons f fs ih =>
      intro acc h
      exact ih (processItem ctx acc f) (keys_nodup_processItem ctx f h)
  exact h [] (by simp)

theorem subtitle_id_eq_key_queryMerge (ctx : QueryContext)
    (frags : List (String × SubtitleItem)) :
    ∀ p ∈ queryMerge ctx frags, p.2.subtitle_id = p.1 := by
  rw [queryMerge]
  have h : ∀ acc : List (Nat × SubsCenterSubtitle),
      (∀ p ∈ acc, p.2.subtitle_id = p.1) →
      ∀ p ∈ frags.foldl (processItem ctx) acc, p.2.subtitle_id = p.1 := by
    induction frags with
    | nil => exact fun acc h => h
    | cons f fs ih =>
      intro acc h
      refine ih (processItem ctx acc f) ?_
      intro p hp
      by_cases hmem : (dictFind f.2.id acc).isSome
      · rw [show processItem ctx acc f =
            dictUpdate acc f.2.id (fun t => mergeStep t f.2) by
          simp [processItem, hmem]] at hp
        rcases List.mem_map.mp hp with ⟨q, hq, hqp⟩
        by_cases hqk : q.1 = f.2.id
        · rw [if_pos hqk] at hqp
          subst hqp
          simpa [mergeStep] using h q hq
        · rw [if_neg hqk] at hqp
          subst hqp
          exact h q hq
      · rw [show processItem ctx acc f = acc ++ [(f.2.id, newRecord ctx f)] by
            simp [processItem, hmem]] at hp
        rcases List.mem_append.mp hp with hq | hq
        · exact h p hq
        · simp only [List.mem_singleton] at hq
          subst hq
          rfl
  exact h [] (by simp)

theorem dictFind_of_mem {m : List (Nat × SubsCenterSubtitle)}
    (hnodup : (m.map Prod.fst).Nodup) {p : Nat × SubsCenterSubtitle} (hp : p ∈ m) :
    dictFind p.1 m = some p.2 := by
  induction m with
  | nil => cases hp
  | cons q rest ih =>
    simp only [List.map_cons, List.nodup_cons] at hnodup
    rcases List.mem_cons.mp hp with h | h
    · subst h
      rw [dictFind, if_pos rfl]
    · have hq : q.1 ≠ p.1 := by
        intro he
        exact hnodup.1 (he ▸ List.mem_map.mpr ⟨p, h, rfl⟩)
      rw [dictFind, if_neg hq]
      exact ih hnodup.2 h

/-- Every record `query` returns is the accumulator's entry at its own id. -/
theorem query_mem_dictFind (ctx : QueryContext) (results : RawListing)
    {s : SubsCenterSubtitle} (hs : s ∈ query ctx results) :
    dictFind s.subtitle_id (queryMerge ctx (flattenListing results)) = some s := by
  rcases List.mem_map.mp hs with ⟨p, hp, hps⟩
  have hid : p.2.subtitle_id = p.1 :=
    subtitle_id_eq_key_queryMerge ctx (flattenListing results) p hp
  have := dictFind_of_mem (keys_nodup_queryMerge ctx (flattenListing results)) hp
  rw [← hps, hid, this]

/-- Every record `query` returns is the full merge of the fragments sharing
its id, seeded from the first such fragment. -/
theorem query_mem_spec (ctx : QueryContext) (results : RawListing)
    {s : SubsCenterSubtitle} (hs : s ∈ query ctx results) :
    ∃ f fs, fragsFor (flattenListing results) s.subtitle_id = f :: fs ∧
      s = mergeAll (newRecord ctx f) fs := by
  have h := query_mem_dictFind ctx results hs
  rw [dictFind_queryMerge] at h
  cases hf : fragsFor (flattenListing results) s.subtitle_id with
  | nil => rw [hf] at h; cases h
  | cons f fs =>
    rw [hf] at h
    exact ⟨f, fs, rfl, (Option.some.injEq _ _ ▸ h).symm⟩

/-- The releases list of a merged record: every version of the fragments
sharing the id, inserted one by one into an initially empty sorted list. -/
theorem query_record_releases (ctx : QueryContext) (f : String × SubtitleItem)
    (fs : List (String × SubtitleItem)) :
    (mergeAll (newRecord ctx f) fs).releases =
      ((f :: fs).map fun g => g.2.subtitle_version).foldl insort_left [] := by
  rw [mergeAll_releases]
  simp only [List.map_cons, List.foldl_cons]
  rfl

/-- The downloaded total of a merged record: the sum over all fragments
sharing the id. -/
theorem query_record_downloaded (ctx : QueryContext) (f : String × SubtitleItem)
    (fs : List (String × SubtitleItem)) :
    (mergeAll (newRecord ctx f) fs).downloaded =
      ((f :: fs).map fun g => g.2.downloaded).sum := by
  rw [mergeAll_downloaded]
  simp [newRecord]

/-! ### Concrete fixtures used by the witnesses and counterexamples -/

/-- A query context as built by an episode query. -/
def ctx0 : QueryContext :=
  { page_link := "http://subscenter.cinemast.com/he/subtitle/series/breaking-bad/1/1/"
    series := some "Breaking Bad"
    season := some 1
    episode := some 1
    title := none }

def itemDupA : SubtitleItem :=
  { hearing_impaired := false, id := 1, key := "k1", downloaded := 2
    subtitle_version := "Group1.HDTV" }

def itemDupB : SubtitleItem :=
  { hearing_impaired := false, id := 1, key := "k2", downloaded := 3
    subtitle_version := "Group1.HDTV" }

/-- A listing in which the same release name arrives twice for id 1. -/
def exDup : RawListing := [("he", [[("480", [itemDupA, itemDupB])]])]

/-- The record `query` builds from `exDup`. -/
def sDup : SubsCenterSubtitle :=
  { language := Language.fromalpha2 "he", hearing_impaired := false
    page_link := ctx0.page_link, series := some "Breaking Bad", season := some 1
    episode := some 1, title := none, subtitle_id := 1, subtitle_key := "k1"
    downloaded := 5, releases := ["Group1.HDTV", "Group1.HDTV"] }

def itemG1 : SubtitleItem :=
  { hearing_impaired := false, id := 42, key := "key42", downloaded := 3
    subtitle_version := "Group1" }

def itemG2 : SubtitleItem :=
  { hearing_impaired := true, id := 42, key := "other", downloaded := 5
    subtitle_version := "Group2" }

/-- The spec's end-to-end example: two fragments with id 42, releases
Group1/Group2, downloaded 3 and 5. -/
def ex42 : RawListing := [("he", [[("720", [itemG1, itemG2])]])]

/-- The single merged record `query` builds from `ex42`. -/
def s42 : SubsCenterSubtitle :=
  { language := Language.fromalpha2 "he", hearing_impaired := false
    page_link := ctx0.page_link, series := some "Breaking Bad", season := some 1
    episode := some 1, title := none, subtitle_id := 42, subtitle_key := "key42"
    downloaded := 8, releases := ["Group1", "Group2"] }

def itemH1 : SubtitleItem :=
  { hearing_impaired := true, id := 7, key := "kH", downloaded := 1
    subtitle_version := "A.720p" }

def itemH2 : SubtitleItem :=
  { hearing_impaired := false, id := 7, key := "kH", downloaded := 2
    subtitle_version := "B.1080p" }

/-- Two listings that are item-order rearrangements of one another. -/
def ex3A : RawListing := [("he", [[("720", [itemH1, itemH2])]])]

/-- `ex3A` with the two leaf items swapped. -/
def ex3B : RawListing := [("he", [[("720", [itemH2, itemH1])]])]

/-! ### Claims -/

/-- Claim C1, amended: every `releases` sequence of a record returned by
`query` is lexicographically sorted, for any order of arrival of the
fragments.  The claim's no-duplicate part is false: `bisect.insort_left`
inserts unconditionally, so a release name arriving twice for one id stays
duplicated (see the counterexample). -/
theorem claim1_releases_sorted (ctx : QueryContext) (results : RawListing)
    (s : SubsCenterSubtitle) (hs : s ∈ query ctx results) :
    s.releases.Pairwise fun a b => pyStrLe a b = true := by
  rcases query_mem_spec ctx results hs with ⟨f, fs, _, hseq⟩
  rw [hseq, query_record_releases]
  exact foldl_insort_pairwise _ List.Pairwise.nil

theorem claim1_witness :
    sDup ∈ query ctx0 exDup ∧
    sDup.releases.Pairwise (fun a b => pyStrLe a b = true) :=
  ⟨by decide, claim1_releases_sorted ctx0 exDup sDup (by decide)⟩

/-- Claim C1 counterexample: merging a fragment whose release name already
appears in the record's releases duplicates the value — the single record
built from `exDup` has releases `["Group1.HDTV", "Group1.HDTV"]`, so the
claimed no-duplicates invariant fails. -/
theorem claim1_counterexample :
    (query ctx0 exDup).map (fun s => s.releases) =
      [["Group1.HDTV", "Group1.HDTV"]] := by decide

/-- Claim C2: the `downloaded` field of each record returned by `query`
equals the sum of the `downloaded` values of all raw fragments sharing the
record's id. -/
theorem claim2_downloaded_sum (ctx : QueryContext) (results : RawListing)
    (s : SubsCenterSubtitle) (hs : s ∈ query ctx results) :
    s.downloaded =
      ((fragsFor (flattenListing results) s.subtitle_id).map
        fun f => f.2.downloaded).sum := by
  rcases query_mem_spec ctx results hs with ⟨f, fs, hf, hseq⟩
  rw [hf, hseq, query_record_downloaded]

theorem claim2_witness :
    s42 ∈ query ctx0 ex42 ∧
    s42.downloaded =
      ((fragsFor (flattenListing ex42) s42.subtitle_id).map
        fun f => f.2.downloaded).sum ∧
    s42.downloaded = 8 ∧ s42.releases = ["Group1", "Group2"] :=
  ⟨by decide, claim2_downloaded_sum ctx0 ex42 s42 (by decide), by decide, by decide⟩

/-- Claim C3, amended: the merge is traversal-order independent in the set of
ids and, per id, in the merged releases sequence and the downloaded total —
for any two listings whose four-level traversals visit the same leaf
multiset.  The claim's further assertion that *every other* record field is
also order-independent is false: fields such as `hearing_impaired` and the
download key are taken from whichever fragment of the id arrives first
(see the counterexample). -/
theorem claim3_order_independent (ctx : QueryContext) (r1 r2 : RawListing)
    (hperm : (flattenListing r1).Perm (flattenListing r2)) (i : Nat) :
    ((dictFind i (queryMerge ctx (flattenListing r1))).map
        fun s => (s.releases, s.downloaded)) =
      ((dictFind i (queryMerge ctx (flattenListing r2))).map
        fun s => (s.releases, s.downloaded)) := by
  rw [dictFind_queryMerge, dictFind_queryMerge]
  have hfil : (fragsFor (flattenListing r1) i).Perm (fragsFor (flattenListing r2) i) :=
    hperm.filter _
  cases h1 : fragsFor (flattenListing r1) i with
  | nil =>
    rw [h1] at hfil
    rw [hfil.nil_eq.symm]
  | cons f fs =>
    cases h2 : fragsFor (flattenListing r2) i with
    | nil =>
      rw [h1, h2] at hfil
      exact absurd hfil.symm.nil_eq (by simp)
    | cons g gs =>
      rw [h1, h2] at hfil
      have hrel : (mergeAll (newRecord ctx f) fs).releases =
          (mergeAll (newRecord ctx g) gs).releases := by
        rw [query_record_releases, query_record_releases]
        refine sorted_perm_eq ?_ (foldl_insort_pairwise _ List.Pairwise.nil)
          (foldl_insort_pairwise _ List.Pairwise.nil)
        refine (foldl_insort_perm _ []).trans ?_
        refine List.Perm.trans ?_ (foldl_insort_perm _ []).symm
        simpa using hfil.map fun x => x.2.subtitle_version
      have hdl : (mergeAll (newRecord ctx f) fs).downloaded =
          (mergeAll (newRecord ctx g) gs).downloaded := by
        rw [query_record_downloaded, query_record_downloaded]
        exact (hfil.map fun x => x.2.downloaded).sum_eq
      simp [hrel, hdl]

theorem claim3_witness :
    (flattenListing ex3A).Perm (flattenListing ex3B) ∧
    ((dictFind 7 (queryMerge ctx0 (flattenListing ex3A))).map
        fun s => (s.releases, s.downloaded)) =
      ((dictFind 7 (queryMerge ctx0 (flattenListing ex3B))).map
        fun s => (s.releases, s.downloaded)) :=
  ⟨by decide, claim3_order_independent ctx0 ex3A ex3B (by decide) 7⟩

/-- Claim C3 counterexample: `ex3B` traverses the same leaves as `ex3A` in a
different order (the two items of id 7 swapped), yet the resulting records
differ in `hearing_impaired` (and in `subtitle_key`): the fields outside
releases/downloaded follow the first fragment encountered, so the full
mapping is not traversal-order independent. -/
theorem claim3_counterexample :
    (flattenListing ex3A).Perm (flattenListing ex3B) ∧
    (query ctx0 ex3A).map (fun s => s.hearing_impaired) = [true] ∧
    (query ctx0 ex3B).map (fun s => s.hearing_impaired) = [false] :=
  ⟨by decide, by decide, by decide⟩

theorem truthyStr_iff (o : Option String) :
    truthyStr o = true ↔ ∃ v, o = some v ∧ v ≠ "" := by
  cases o <;> simp [truthyStr]

theorem truthyNat_iff (o : Option Nat) :
    truthyNat o = true ↔ ∃ n, o = some n ∧ n ≠ 0 := by
  cases o <;> simp [truthyNat]

/-- Claim C4, amended: `query` raises its `ValueError` exactly when neither a
fully truthy (series, season, episode) triple nor a truthy title is supplied
— and it does so before any network request.  The claim's stronger reading
that an inconsistent combination (both forms at once, or a partial triple
plus a title) is also rejected is false: with a full triple the episode
branch is taken regardless of `title`, and with a partial triple a truthy
`title` silently selects the movie branch (see the counterexample). -/
theorem claim4_valueerror_iff (series : Option String) (season episode : Option Nat)
    (title : Option String) :
    queryDispatch series season episode title =
        Except.error "One or more parameters are missing" ↔
      ¬((∃ v, series = some v ∧ v ≠ "") ∧ (∃ n, season = some n ∧ n ≠ 0) ∧
          (∃ n, episode = some n ∧ n ≠ 0)) ∧
      ¬(∃ v, title = some v ∧ v ≠ "") := by
  rw [queryDispatch]
  by_cases h1 : (truthyStr series && truthyNat season && truthyNat episode) = true
  · rw [if_pos h1]
    simp only [Bool.and_eq_true] at h1
    simp only [truthyStr_iff, truthyNat_iff] at h1
    constructor
    · intro h; cases h
    · intro h
      exact absurd ⟨h1.1.1, h1.1.2, h1.2⟩ h.1
  · rw [if_neg h1]
    by_cases h2 : truthyStr title = true
    · rw [if_pos h2]
      constructor
      · intro h; cases h
      · intro h
        exact absurd (truthyStr_iff title |>.mp h2) h.2
    · rw [if_neg h2]
      constructor
      · intro _
        simp only [Bool.and_eq_true, not_and] at h1
        constructor
        · intro ⟨hs, hse, hep⟩
          exact h1 ⟨(truthyStr_iff series).mpr hs, (truthyNat_iff season).mpr hse⟩
            ((truthyNat_iff episode).mpr hep)
        · intro ht
          exact h2 ((truthyStr_iff title).mpr ht)
      · intro _; rfl

/-- Claim C4 counterexample: supplying both identification forms at once is,
per the claim, an inconsistent combination that must raise — but the
dispatch accepts it and takes the episode branch; likewise a partial episode
triple together with a title silently takes the movie branch. -/
theorem claim4_counterexample :
    queryDispatch (some "Breaking Bad") (some 1) (some 1) (some "Pilot") =
        Except.ok QueryBranch.episodeBranch ∧
    queryDispatch (some "Breaking Bad") (some 1) none (some "Pilot") =
        Except.ok QueryBranch.movieBranch :=
  ⟨rfl, rfl⟩

/-- Claim C5: in the redirect branch of `_search_url_title`, a `Location`
path whose kind segment (third-from-last component) differs from the
requested kind yields `None`, never the mismatched slug; a matching kind
segment yields the second-from-last component as the slug. -/
theorem claim5_redirect_kind_check (location kind : String)
    (h : 3 ≤ (pySplitSlash location).length) :
    (kindSegment location ≠ kind →
        search_url_title_redirect location kind = Except.ok none) ∧
    (kindSegment location = kind →
        search_url_title_redirect location kind =
          Except.ok (some (slugSegment location))) := by
  have h' : ¬ (pySplitSlash location).length < 3 := not_lt.mpr h
  constructor
  · intro hk
    unfold search_url_title_redirect
    rw [if_neg h', if_neg hk]
  · intro hk
    unfold search_url_title_redirect
    rw [if_neg h', if_pos hk]

theorem claim5_witness :
    search_url_title_redirect "x/series/breaking-bad/" "series" =
        Except.ok (some "breaking-bad") ∧
    search_url_title_redirect "x/series/breaking-bad/" "movie" = Except.ok none :=
  ⟨(claim5_redirect_kind_check "x/series/breaking-bad/" "series" (by decide)).2
      (by decide),
   (claim5_redirect_kind_check "x/series/breaking-bad/" "movie" (by decide)).1
      (by decide)⟩

/-- Claim C6: in the non-redirect branch of `_search_url_title`, the
suggestions are scanned in document order and the slug of the first whose
kind segment equals the requested kind is returned; when none matches
(including an empty suggestion list) the result is `None`. -/
theorem claim6_first_matching_suggestion (hrefs : List String) (kind : String)
    (h : ∀ href ∈ hrefs, 3 ≤ (pySplitSlash href).length) :
    search_url_title_suggestions hrefs kind =
      Except.ok ((hrefs.find? fun href => decide (kindSegment href = kind)).map
        slugSegment) := by
  induction hrefs with
  | nil => rfl
  | cons href rest ih =>
    have hh : ¬ (pySplitSlash href).length < 3 :=
      not_lt.mpr (h href (List.mem_cons_self href rest))
    rw [search_url_title_suggestions, if_neg hh]
    by_cases hk : kindSegment href = kind
    · rw [if_pos hk, List.find?_cons_of_pos _ (by simp [hk])]
      rfl
    · rw [if_neg hk, List.find?_cons_of_neg _ (by simp [hk])]
      exact ih fun x hx => h x (List.mem_cons_of_mem href hx)

/-- The suggestion links used by the claim-6 witness. -/
def hrefs0 : List String :=
  ["x/movie/wrong-kind/", "x/series/first-match/", "x/series/second-match/"]

theorem claim6_witness :
    search_url_title_suggestions hrefs0 "series" = Except.ok (some "first-match") ∧
    search_url_title_suggestions hrefs0 "doc" = Except.ok none := by
  have h1 := claim6_first_matching_suggestion hrefs0 "series" (by decide)
  have h2 := claim6_first_matching_suggestion hrefs0 "doc" (by decide)
  exact ⟨by rw [h1]; congr 1, by rw [h2]; congr 1⟩

/-- Claim C7: when exactly one entry name survives the `.txt` exclusion,
`download_subtitle` stores the line-ending-normalized bytes of that entry;
when two or more survive, it raises the distinct provider-level
`ProviderError` and stores no content (modelled by returning the error). -/
theorem claim7_archive_extraction (entries : List (String × List Nat)) :
    (∀ n, zfNamelist entries = [n] →
        download_subtitle entries =
          Except.ok (fix_line_ending (zfRead entries n))) ∧
    (2 ≤ (zfNamelist entries).length →
        download_subtitle entries =
          Except.error (DownloadError.providerError "More than one file to unzip")) := by
  constructor
  · intro n hn
    unfold download_subtitle
    rw [hn]
    norm_num
  · intro h2
    unfold download_subtitle
    rw [if_pos (show (zfNamelist entries).length > 1 by omega)]

/-- An archive with one subtitle entry (containing a CRLF) and one `.txt`
readme. -/
def arcGood : List (String × List Nat) :=
  [("sub.srt", [72, 105, 13, 10, 66]), ("readme.txt", [65])]

/-- An archive in which two non-`.txt` entries remain after filtering. -/
def arcBad : List (String × List Nat) := [("a.srt", [1]), ("b.srt", [2])]

theorem claim7_witness :
    download_subtitle arcGood = Except.ok [72, 105, 10, 66] ∧
    download_subtitle arcBad =
      Except.error (DownloadError.providerError "More than one file to unzip") := by
  have h := (claim7_archive_extraction arcGood).1 "sub.srt" (by decide)
  exact ⟨by rw [h]; congr 1, (claim7_archive_extraction arcBad).2 (by decide)⟩

/-- Claim C8, amended: the transport session is released only when
`terminate` runs to its `session.close()` call (which happens whenever the
logout step does not raise); when the login handshake inside `initialize`
fails, `AuthenticationError` propagates with the session still open — the
claim's guarantee of release on that exit path does not hold in the code
(see the counterexample). -/
theorem claim8_session_release (st : ProviderState) (logoutStatus : Nat)
    (u p : String) (loginStatus : Nat) :
    ((terminateProvider st logoutStatus).2 = none →
        (terminateProvider st logoutStatus).1.sessionOpen = false) ∧
    (loginStatus ≠ 302 →
        (initializeProvider (some u) (some p) loginStatus).2 =
            some (ProviderFailure.authenticationError u) ∧
          (initializeProvider (some u) (some p) loginStatus).1.sessionOpen = true) := by
  constructor
  · intro hnone
    unfold terminateProvider at hnone ⊢
    by_cases hlog : st.logged_in
    · rw [if_pos hlog] at hnone ⊢
      by_cases hst : 400 ≤ logoutStatus
      · rw [if_pos hst] at hnone; cases hnone
      · rw [if_neg hst]
    · rw [if_neg hlog]
  · intro hstatus
    unfold initializeProvider
    simp [hstatus]

theorem claim8_witness :
    (terminateProvider { sessionOpen := true, logged_in := true } 200).1.sessionOpen =
        false ∧
    (initializeProvider (some "user") (some "pass") 403).2 =
        some (ProviderFailure.authenticationError "user") ∧
    (initializeProvider (some "user") (some "pass") 403).1.sessionOpen = true :=
  ⟨(claim8_session_release { sessionOpen := true, logged_in := true } 200 "user"
      "pass" 403).1 (by decide),
   (claim8_session_release { sessionOpen := true, logged_in := true } 200 "user"
      "pass" 403).2 (by decide)⟩

/-- Claim C8 counterexample: a failed login handshake (`initialize` with
credentials and a non-302 login response) raises `AuthenticationError`
while the session opened at the top of `initialize` is still open — there
is no release on this exit path, contradicting the claim. -/
theorem claim8_counterexample :
    (initializeProvider (some "user") (some "pass") 403).2 =
        some (ProviderFailure.authenticationError "user") ∧
    (initializeProvider (some "user") (some "pass") 403).1.sessionOpen = true := by
  constructor <;> rfl

/-- Claim C9: when every archive entry name ends with `.txt`, the filtered
name list is empty, so `download_subtitle` does not raise the
more-than-one-file `ProviderError` and sets no content; it fails with the
indexing error from `namelist[0]` on the empty list. -/
theorem claim9_all_txt_index_error (entries : List (String × List Nat))
    (h : ∀ n ∈ entries.map Prod.fst, pyEndsWith n ".txt" = true) :
    download_subtitle entries = Except.error DownloadError.indexError := by
  have hempty : zfNamelist entries = [] := by
    rw [zfNamelist, List.filter_eq_nil_iff]
    intro n hn
    simp [h n hn]
  unfold download_subtitle
  rw [hempty]
  norm_num

theorem claim9_witness :
    download_subtitle [("readme.txt", [1]), ("notes.txt", [2])] =
      Except.error DownloadError.indexError :=
  claim9_all_txt_index_error [("readme.txt", [1]), ("notes.txt", [2])] (by decide)

/-- Claim C10: when several fragments share an id, every constructor-set
field other than `releases` and `downloaded` — the language, the
hearing-impaired flag, the page link, the series/season/episode/title
context and the download key — is taken from the first fragment encountered
for that id, and processing each later fragment with that id (one
`mergeStep`) leaves all of those fields unchanged. -/
theorem claim10_first_fragment_fields (ctx : QueryContext) (results : RawListing)
    (s : SubsCenterSubtitle) (f : String × SubtitleItem)
    (fs : List (String × SubtitleItem)) (hs : s ∈ query ctx results)
    (hf : fragsFor (flattenListing results) s.subtitle_id = f :: fs) :
    (s.language = Language.fromalpha2 f.1 ∧
     s.hearing_impaired = f.2.hearing_impaired ∧
     s.page_link = ctx.page_link ∧ s.series = ctx.series ∧
     s.season = ctx.season ∧ s.episode = ctx.episode ∧ s.title = ctx.title ∧
     s.subtitle_key = f.2.key) ∧
    (∀ t item,
      (mergeStep t item).language = t.language ∧
      (mergeStep t item).hearing_impaired = t.hearing_impaired ∧
      (mergeStep t item).page_link = t.page_link ∧
      (mergeStep t item).series = t.series ∧
      (mergeStep t item).season = t.season ∧
      (mergeStep t item).episode = t.episode ∧
      (mergeStep t item).title = t.title ∧
      (mergeStep t item).subtitle_key = t.subtitle_key) := by
  constructor
  · rcases query_mem_spec ctx results hs with ⟨f', fs', hf', hseq⟩
    rw [hf] at hf'
    injection hf' with he ht
    subst he ht hseq
    have hframe := mergeAll_frame (newRecord ctx f) fs
    exact ⟨hframe.1, hframe.2.1, hframe.2.2.1, hframe.2.2.2.1, hframe.2.2.2.2.1,
      hframe.2.2.2.2.2.1, hframe.2.2.2.2.2.2.1, hframe.2.2.2.2.2.2.2.2⟩
  · intro t item
    have h := mergeStep_frame t item
    exact ⟨h.1, h.2.1, h.2.2.1, h.2.2.2.1, h.2.2.2.2.1, h.2.2.2.2.2.1,
      h.2.2.2.2.2.2.1, h.2.2.2.2.2.2.2.2⟩

theorem claim10_witness :
    s42 ∈ query ctx0 ex42 ∧
    s42.subtitle_key = itemG1.key ∧
    s42.hearing_impaired = itemG1.hearing_impaired :=
  ⟨by decide,
   ((claim10_first_fragment_fields ctx0 ex42 s42 ("he", itemG1) [("he", itemG2)]
      (by decide) (by decide)).1).2.2.2.2.2.2.2,
   ((claim10_first_fragment_fields ctx0 ex42 s42 ("he", itemG1) [("he", itemG2)]
      (by decide) (by decide)).1).2.1⟩

end SubsCenter
